import Mathlib

/-!
Verification of the context-raii task/chunk ownership engine.

The Python sources under `src/raii/` are shallowly embedded here:
  - `task_registry.py`   → namespace `Raii.TaskRegistry`
  - `context_tagger.py`  → namespace `Raii.ContextTagger`
  - `reference_graph.py` → namespace `Raii.ReferenceGraph`
  - `eviction_engine.py` → namespace `Raii.EvictionEngine`

The SQLite database is modelled as an explicit `Store` value holding the five
tables of `storage.py`; every SQL statement becomes a pure list transformation
on that value.  ISO-8601 timestamps (whose lexicographic order agrees with
chronological order) are modelled as naturals; JSON objects used as tool
inputs are modelled as string-to-string association lists, which is the shape
every claim exercises.  Fields that no claim touches (content hashes, log
output, the status_changed_at migration column) are omitted.
-/

namespace Raii

/-- Task record (`src/raii/task_registry.py`, dataclass `Task`).  The derived
`context_chunk_ids` set is not stored here; it is recomputed from the
`task_chunks` table exactly as `_row_to_task` does. -/
structure Task where
  id : String
  subject : String
  status : String
  parent_id : Option String := none
  created_at : Nat := 0
  completed_at : Option Nat := none
  metadata : List (String × String) := []
deriving DecidableEq, Repr

/-- `Task.is_active`: status in ("pending", "in_progress"). -/
def Task.is_active (t : Task) : Bool :=
  t.status == "pending" || t.status == "in_progress"

/-- `Task.is_complete`: status == "completed" (and nothing else). -/
def Task.is_complete (t : Task) : Bool :=
  t.status == "completed"

/-- Context chunk record (`src/raii/context_tagger.py`, dataclass
`ContextChunk`).  The derived `task_ids` set is recomputed from the
`task_chunks` table as `_row_to_chunk` does; `content_hash` is omitted (no
claim concerns it). -/
structure ContextChunk where
  id : String
  tool_name : String
  tool_input : List (String × String) := []
  is_refetchable : Bool := false
  status : String := "fresh"
  size_tokens : Nat := 0
  created_at : Nat := 0
  session_id : Option String := none
deriving DecidableEq, Repr

/-- Reference edge row (`src/raii/reference_graph.py`, dataclass
`ReferenceEdge`). -/
structure RefEdge where
  source_task_id : String
  target_chunk_id : String
  reference_type : String := "cited_in_reasoning"
  created_at : Nat := 0
deriving DecidableEq, Repr

/-- The SQLite store of `src/raii/storage.py`: tables `tasks`,
`context_chunks`, `reference_edges`, `task_chunks` (pairs task_id × chunk_id)
and `task_dependencies` (pairs dependent × dependency). -/
structure Store where
  tasks : List Task := []
  chunks : List ContextChunk := []
  task_chunks : List (String × String) := []
  reference_edges : List RefEdge := []
  task_dependencies : List (String × String) := []
deriving DecidableEq, Repr

namespace TaskRegistry

/-- `TaskRegistry.get`: SELECT * FROM tasks WHERE id = ? (id is the primary
key, so the first match is the row). -/
def get (s : Store) (task_id : String) : Option Task :=
  s.tasks.find? (fun t => t.id == task_id)

/-- `TaskRegistry.upsert`: INSERT ... ON CONFLICT(id) DO UPDATE SET subject,
status, parent_id, completed_at, metadata = excluded; `created_at` is not in
the conflict update list, so the existing row keeps its value. -/
def upsert (s : Store) (task : Task) : Store :=
  if s.tasks.any (fun t => t.id == task.id) then
    { s with tasks := s.tasks.map (fun t =>
        if t.id == task.id then { task with created_at := t.created_at } else t) }
  else
    { s with tasks := s.tasks ++ [task] }

/-- `TaskRegistry.create`: builds a pending task and upserts it. -/
def create (s : Store) (id subject : String) (parent_id : Option String) (now : Nat) : Store :=
  upsert s { id := id, subject := subject, status := "pending",
             parent_id := parent_id, created_at := now }

/-- `TaskRegistry.update_status`: fetches the task (returning the unchanged
store when absent), sets the status, stamps `completed_at` when the new status
is "completed" and no stamp exists, then upserts. -/
def update_status (s : Store) (task_id status : String) (now : Nat) : Store :=
  match get s task_id with
  | none => s
  | some t =>
      upsert s { t with
        status := status,
        completed_at :=
          if status == "completed" && t.completed_at == none then some now
          else t.completed_at }

/-- `TaskRegistry.tag_chunk`: INSERT OR IGNORE INTO task_chunks. -/
def tag_chunk (s : Store) (task_id chunk_id : String) : Store :=
  if s.task_chunks.any (fun p => p.1 == task_id && p.2 == chunk_id) then s
  else { s with task_chunks := s.task_chunks ++ [(task_id, chunk_id)] }

/-- `TaskRegistry.add_dependency`: INSERT OR IGNORE INTO task_dependencies. -/
def add_dependency (s : Store) (dependent_task_id dependency_task_id : String) : Store :=
  if s.task_dependencies.any
      (fun p => p.1 == dependent_task_id && p.2 == dependency_task_id) then s
  else { s with task_dependencies :=
          s.task_dependencies ++ [(dependent_task_id, dependency_task_id)] }

/-- `TaskRegistry.has_active_dependents`: COUNT(*) > 0 over the join of
task_dependencies with tasks on the dependent id, filtered to pending or
in_progress dependents. -/
def has_active_dependents (s : Store) (task_id : String) : Bool :=
  s.task_dependencies.any (fun p =>
    p.2 == task_id &&
    s.tasks.any (fun t =>
      t.id == p.1 && (t.status == "pending" || t.status == "in_progress")))

/-- `TaskRegistry.get_current_active`: SELECT ... WHERE status = 'in_progress'
ORDER BY created_at DESC LIMIT 1 — an in_progress row of maximal created_at
(the first such row on ties, one consistent choice for the unspecified SQLite
tie order). -/
def get_current_active (s : Store) : Option Task :=
  (s.tasks.filter (fun t => t.status == "in_progress")).foldl
    (fun best t =>
      match best with
      | none => some t
      | some b => if b.created_at < t.created_at then some t else some b)
    none

/-- Number of chunks in the whole store created strictly after the task's
created-at. -/
def chunksCreatedAfter (s : Store) (t : Task) : Nat :=
  (s.chunks.filter (fun c => t.created_at < c.created_at)).length

/-- An in_progress task that accumulated at least `threshold` later chunks. -/
def isStaleTask (s : Store) (threshold : Nat) (t : Task) : Bool :=
  t.status == "in_progress" && threshold ≤ chunksCreatedAfter s t

/-- Modelled from the spec: `TaskRegistry.abandon_stale_tasks` is invoked by
`EvictionEngine.run` and exercised by the benchmarks, but the method itself is
absent from `src/raii/task_registry.py`.  Spec section 4.2: for each
in_progress task, counts chunks created after that task's created-at across
the whole store; if the count is at least the threshold (default 50), sets the
status to `abandoned`; returns the list of transitioned ids. -/
def abandon_stale_tasks (s : Store) (threshold : Nat) : Store × List String :=
  ({ s with tasks := s.tasks.map (fun t =>
      if isStaleTask s threshold t then { t with status := "abandoned" } else t) },
   (s.tasks.filter (isStaleTask s threshold)).map Task.id)

end TaskRegistry

namespace ContextTagger

/-- `REFETCHABLE_TOOLS` from `context_tagger.py`. -/
def REFETCHABLE_TOOLS : List String := ["Read", "Glob", "Grep", "WebFetch", "WebSearch"]

/-- `_estimate_tokens`: max(1, len(text) // 4). -/
def _estimate_tokens (text : String) : Nat := max 1 (text.length / 4)

/-- `ContextTagger._persist`: INSERT ... ON CONFLICT(id) DO UPDATE SET status,
size_tokens, content_hash = excluded; all other columns of an existing row are
kept. -/
def _persist (s : Store) (chunk : ContextChunk) : Store :=
  if s.chunks.any (fun c => c.id == chunk.id) then
    { s with chunks := s.chunks.map (fun c =>
        if c.id == chunk.id then
          { c with status := chunk.status, size_tokens := chunk.size_tokens }
        else c) }
  else
    { s with chunks := s.chunks ++ [chunk] }

/-- `ContextTagger.ingest`: resolves the active task (explicit `task_id`
argument, else `get_current_active`), builds a fresh chunk with estimated
size and refetchable flag, persists it, and tags it to the active task when
one is known.  Returns the new store and the chunk value that was built. -/
def ingest (s : Store) (tool_use_id tool_name : String)
    (tool_input : List (String × String)) (tool_output : String)
    (session_id : Option String) (task_id : Option String) (now : Nat) :
    Store × ContextChunk :=
  let active_task_id : Option String :=
    match task_id with
    | some tid => some tid
    | none => (TaskRegistry.get_current_active s).map Task.id
  let chunk : ContextChunk :=
    { id := tool_use_id, tool_name := tool_name, tool_input := tool_input,
      is_refetchable := REFETCHABLE_TOOLS.contains tool_name,
      status := "fresh", size_tokens := _estimate_tokens tool_output,
      created_at := now, session_id := session_id }
  let s1 := _persist s chunk
  let s2 :=
    match active_task_id with
    | some tid => TaskRegistry.tag_chunk s1 tid tool_use_id
    | none => s1
  (s2, chunk)

/-- `ContextTagger.mark_evictable`: UPDATE context_chunks SET status =
'evictable' WHERE id = ?. -/
def mark_evictable (s : Store) (chunk_id : String) : Store :=
  { s with chunks := s.chunks.map (fun c =>
      if c.id == chunk_id then { c with status := "evictable" } else c) }

/-- `ContextTagger.mark_integrated`: UPDATE context_chunks SET status =
'integrated' WHERE id = ?. -/
def mark_integrated (s : Store) (chunk_id : String) : Store :=
  { s with chunks := s.chunks.map (fun c =>
      if c.id == chunk_id then { c with status := "integrated" } else c) }

/-- Stable insertion of a chunk after every chunk with a smaller-or-equal
created-at. -/
def insertByCreatedAt (c : ContextChunk) : List ContextChunk → List ContextChunk
  | [] => [c]
  | d :: rest =>
      if d.created_at ≤ c.created_at then d :: insertByCreatedAt c rest
      else c :: d :: rest

/-- Stable ascending sort on created-at. -/
def sortByCreatedAt : List ContextChunk → List ContextChunk
  | [] => []
  | c :: rest => insertByCreatedAt c (sortByCreatedAt rest)

/-- `ContextTagger.list_all`: SELECT * FROM context_chunks ORDER BY created_at
(a stable ascending sort over the table). -/
def list_all (s : Store) : List ContextChunk := sortByCreatedAt s.chunks

/-- The rows `invalidate_reads_for_path path` targets: file-read chunks whose
input's `file_path` equals `path` and whose status is still `fresh`. -/
def invalidatesRead (path : String) (c : ContextChunk) : Bool :=
  c.tool_name == "Read" && c.tool_input.lookup "file_path" == some path &&
    c.status == "fresh"

/-- Modelled from the spec: `ContextTagger.invalidate_reads_for_path` is
called by `src/hooks/post_tool_use.py` and by the tests, but the method is
absent from `src/raii/context_tagger.py`.  Spec section 4.3: marks all fresh
(not-yet-evictable) chunks as `evictable` when tool_name is the file-read tool
("Read") and the canonical tool_input's `file_path` equals `path`; returns the
count invalidated. -/
def invalidate_reads_for_path (s : Store) (path : String) : Store × Nat :=
  ({ s with chunks := s.chunks.map (fun c =>
      if invalidatesRead path c then { c with status := "evictable" } else c) },
   (s.chunks.filter (invalidatesRead path)).length)

end ContextTagger

namespace ReferenceGraph

/-- `ReferenceGraph.chunks_referenced_by_active_tasks`: SELECT DISTINCT
re.target_chunk_id FROM reference_edges re JOIN tasks t ON t.id =
re.source_task_id WHERE t.status IN ('pending', 'in_progress').  The DISTINCT
only removes duplicates; membership in the result is what the engine uses. -/
def chunks_referenced_by_active_tasks (s : Store) : List String :=
  (s.reference_edges.filter (fun e =>
      s.tasks.any (fun t =>
        t.id == e.source_task_id &&
          (t.status == "pending" || t.status == "in_progress")))).map
    RefEdge.target_chunk_id

end ReferenceGraph

/-- Lexicographic comparison of char lists by code point (the order
`json.dumps(..., sort_keys=True)` sorts keys with). -/
def charListLe : List Char → List Char → Bool
  | [], _ => true
  | _ :: _, [] => false
  | a :: as, b :: bs =>
      if a.toNat < b.toNat then true
      else if b.toNat < a.toNat then false
      else charListLe as bs

/-- Lexicographic string comparison. -/
def strLe (a b : String) : Bool := charListLe a.data b.data

/-- Stable insertion of a key-value pair after every pair whose key is
smaller or equal. -/
def insertPairByKey (p : String × String) :
    List (String × String) → List (String × String)
  | [] => [p]
  | q :: rest =>
      if strLe q.1 p.1 then q :: insertPairByKey p rest else p :: q :: rest

/-- Stable ascending sort of an association list by key. -/
def sortPairsByKey : List (String × String) → List (String × String)
  | [] => []
  | p :: rest => insertPairByKey p (sortPairsByKey rest)

/-- `json.dumps(tool_input, sort_keys=True)` on the modelled string-valued
object: keys in ascending order, rendered as a JSON object literal. -/
def canonicalJson (input : List (String × String)) : String :=
  "\x7b" ++
    String.intercalate ", "
      ((sortPairsByKey input).map (fun kv => "\"" ++ kv.1 ++ "\": \"" ++ kv.2 ++ "\"")) ++
    "\x7d"

namespace EvictionEngine

/-- `EvictionReport` from `eviction_engine.py`: the `reasons` dict keyed by
chunk id is modelled as the list of insertions (ids are primary keys, so an
id is inserted at most once per run). -/
structure EvictionReport where
  evictable_chunks : List ContextChunk := []
  preserved_chunks : List ContextChunk := []
  total_evictable_tokens : Nat := 0
  total_preserved_tokens : Nat := 0
  reasons : List (String × String) := []
deriving DecidableEq, Repr

/-- `EvictionEngine._chunk_signature`: tool_name + "::" + canonical input.
Serialisation of the modelled input type is total, so the except-branch of
the source (returning None on a non-serialisable input) is unreachable; the
Option shape is kept to mirror the source. -/
def _chunk_signature (c : ContextChunk) : Option String :=
  some (c.tool_name ++ "::" ++ canonicalJson c.tool_input)

/-- One step of the supersession-index fold: `index[sig] = chunk.id`, a later
entry overwriting any earlier one. -/
def indexStep (index : String → Option String) (c : ContextChunk) :
    String → Option String :=
  match _chunk_signature c with
  | some sig => fun k => if k == sig then some c.id else index k
  | none => index

/-- `EvictionEngine._build_supersession_index`: a fold over the chunks (in
the `list_all` order) in which later entries overwrite earlier ones, giving
signature → latest chunk id. -/
def _build_supersession_index (chunks : List ContextChunk) : String → Option String :=
  chunks.foldl indexStep (fun _ => none)

/-- The owning task ids of a chunk, from the `task_chunks` table (this is the
`task_ids` set `_row_to_chunk` attaches to a chunk). -/
def owningTaskIds (s : Store) (c : ContextChunk) : List String :=
  (s.task_chunks.filter (fun p => p.2 == c.id)).map Prod.fst

/-- `EvictionEngine._all_owning_tasks_complete`: false for an orphan chunk
(empty `task_ids`); otherwise every owning task must exist and satisfy
`is_complete`. -/
def _all_owning_tasks_complete (s : Store) (c : ContextChunk) : Bool :=
  let tids := owningTaskIds s c
  if tids.isEmpty then false
  else tids.all (fun tid =>
    match TaskRegistry.get s tid with
    | some t => t.is_complete
    | none => false)

/-- `EvictionEngine._any_owning_task_has_active_dependents`. -/
def _any_owning_task_has_active_dependents (s : Store) (c : ContextChunk) : Bool :=
  (owningTaskIds s c).any (fun tid => TaskRegistry.has_active_dependents s tid)

/-- `EvictionEngine._why_keep`: the ordered rules; None means evictable. -/
def _why_keep (s : Store) (active_referenced : List String)
    (supersession_index : String → Option String) (c : ContextChunk) :
    Option String :=
  let superseded :=
    match _chunk_signature c with
    | some sig =>
        match supersession_index sig with
        | some latest => latest != c.id
        | none => false
    | none => false
  if superseded then
    if _all_owning_tasks_complete s c then none
    else some "superseded_but_task_still_active"
  else if active_referenced.contains c.id then
    some "referenced_by_active_task"
  else if !(_all_owning_tasks_complete s c) then
    some "owning_task_not_complete"
  else if _any_owning_task_has_active_dependents s c then
    some "active_dependent_task"
  else
    none

/-- Append a chunk to the evictable side of a report. -/
def addEvictable (r : EvictionReport) (c : ContextChunk) (reason : String) :
    EvictionReport :=
  { r with evictable_chunks := r.evictable_chunks ++ [c],
           total_evictable_tokens := r.total_evictable_tokens + c.size_tokens,
           reasons := r.reasons ++ [(c.id, reason)] }

/-- Append a chunk to the preserved side of a report. -/
def addPreserved (r : EvictionReport) (c : ContextChunk) (reason : String) :
    EvictionReport :=
  { r with preserved_chunks := r.preserved_chunks ++ [c],
           total_preserved_tokens := r.total_preserved_tokens + c.size_tokens,
           reasons := r.reasons ++ [(c.id, reason)] }

/-- The body of the per-chunk loop of `EvictionEngine.run`: already-evictable
chunks are reported as such; otherwise `_why_keep` decides, and when it
returns None and `update_db` is set the chunk is marked evictable in the
store.  The store is threaded because `mark_evictable` mutates it; `_why_keep`
reads the live store exactly as the source reads the live registry. -/
def stepChunk (update_db : Bool) (active_referenced : List String)
    (idx : String → Option String) (acc : Store × EvictionReport)
    (c : ContextChunk) : Store × EvictionReport :=
  if c.status == "evictable" then
    (acc.1, addEvictable acc.2 c "previously_marked_evictable")
  else
    match _why_keep acc.1 active_referenced idx c with
    | none =>
        ((if update_db then ContextTagger.mark_evictable acc.1 c.id else acc.1),
         addEvictable acc.2 c "all_tasks_complete_no_active_refs")
    | some reason => (acc.1, addPreserved acc.2 c reason)

/-- `EvictionEngine.run`: when `update_db` is set, first auto-abandon stale
in_progress tasks (threshold 50); then classify every chunk of `list_all`
against the active-referenced set and the supersession index built once at
the start. -/
def run (s : Store) (update_db : Bool) : Store × EvictionReport :=
  let s0 := if update_db then (TaskRegistry.abandon_stale_tasks s 50).1 else s
  let chunks := ContextTagger.list_all s0
  let active_referenced := ReferenceGraph.chunks_referenced_by_active_tasks s0
  let idx := _build_supersession_index chunks
  chunks.foldl (stepChunk update_db active_referenced idx) (s0, {})

/-- The total string the source's `_chunk_signature` always succeeds with on
the modelled input type. -/
def sigKey (c : ContextChunk) : String :=
  c.tool_name ++ "::" ++ canonicalJson c.tool_input

/-- The last chunk of a list whose signature is `k`, if any: the value the
supersession index stores, since later entries overwrite earlier ones. -/
def lastWithSig : List ContextChunk → String → Option ContextChunk
  | [], _ => none
  | c :: t, k =>
      match lastWithSig t k with
      | some d => some d
      | none => if sigKey c == k then some c else none

/-- The relation between a chunk row before and after a run: untouched, or
its status overwritten with "evictable". -/
def StatusRel (a b : ContextChunk) : Prop :=
  b = a ∨ b = { a with status := "evictable" }

/-- The store the classification loop starts from: the auto-abandon preamble
applied when `update_db` is set, the input store otherwise. -/
def preStore (s : Store) (b : Bool) : Store :=
  if b then (TaskRegistry.abandon_stale_tasks s 50).1 else s

end EvictionEngine

/-! Concrete stores used to evaluate individual claims. -/

/-- An in_progress task created at time 0 that then saw 50 later chunks. -/
def staleTask : Task :=
  { id := "explore", subject := "Exploratory reading", status := "in_progress",
    created_at := 0 }

/-- A store in which `staleTask` is stale at threshold 50: fifty chunks
created after it. -/
def staleStore : Store :=
  { tasks := [staleTask],
    chunks := (List.range 50).map (fun n =>
      { id := Nat.repr n, tool_name := "Read", status := "fresh",
        size_tokens := 1, created_at := n + 1 }) }

/-- A terminal (abandoned) task owning one fresh chunk. -/
def abandonedOwner : Task :=
  { id := "t1", subject := "Explore", status := "abandoned", created_at := 0,
    completed_at := some 1 }

/-- The fresh chunk owned by `abandonedOwner`. -/
def abandonedOwnerChunk : ContextChunk :=
  { id := "c1", tool_name := "Read", tool_input := [("file_path", "/a")],
    status := "fresh", size_tokens := 10, created_at := 1 }

/-- Store for the abandoned-owner scenario: one abandoned task, one chunk it
owns, no reference edges, no dependencies. -/
def abandonedOwnerStore : Store :=
  { tasks := [abandonedOwner], chunks := [abandonedOwnerChunk],
    task_chunks := [("t1", "c1")] }

/-- A superseded chunk that an active task still references: owner `t1` is
completed, `c1` and `c2` share tool and input (`c2` is newer), and the
in_progress task `t2` holds a reference edge to `c1`. -/
def supersededRefStore : Store :=
  { tasks := [{ id := "t1", subject := "Done", status := "completed",
                created_at := 0, completed_at := some 1 },
              { id := "t2", subject := "Active", status := "in_progress",
                created_at := 10 }],
    chunks := [{ id := "c1", tool_name := "Read",
                 tool_input := [("file_path", "/f")], status := "fresh",
                 size_tokens := 5, created_at := 1 },
               { id := "c2", tool_name := "Read",
                 tool_input := [("file_path", "/f")], status := "fresh",
                 size_tokens := 6, created_at := 2 }],
    task_chunks := [("t1", "c1"), ("t1", "c2")],
    reference_edges := [{ source_task_id := "t2", target_chunk_id := "c1",
                          created_at := 3 }] }

/-- A non-superseded fresh chunk referenced by an active task. -/
def activeRefChunk : ContextChunk :=
  { id := "c1", tool_name := "Read", tool_input := [("file_path", "/f")],
    status := "fresh", size_tokens := 5, created_at := 1 }

/-- `activeRefChunk` owned by an in_progress task that also references it. -/
def activeRefStore : Store :=
  { tasks := [{ id := "t1", subject := "Active", status := "in_progress",
                created_at := 0 }],
    chunks := [activeRefChunk],
    task_chunks := [("t1", "c1")],
    reference_edges := [{ source_task_id := "t1", target_chunk_id := "c1",
                          created_at := 2 }] }

/-- Two chunks with the same tool and byte-identical canonical input, the
second created later. -/
def dupOld : ContextChunk :=
  { id := "c1", tool_name := "Read", tool_input := [("file_path", "/f")],
    status := "fresh", created_at := 1 }

/-- The newer duplicate of `dupOld`. -/
def dupNew : ContextChunk :=
  { id := "c2", tool_name := "Read", tool_input := [("file_path", "/f")],
    status := "fresh", created_at := 2 }

/-- Store holding the two duplicates. -/
def dupStore : Store := { chunks := [dupOld, dupNew] }

/-- A store holding a single already-evictable chunk. -/
def evictableChunkStore : Store :=
  { chunks := [{ id := "c1", tool_name := "Read", status := "evictable",
                 created_at := 0 }] }

/-- A registry store with one freshly created task `t1`. -/
def oneTaskStore : Store := TaskRegistry.create {} "t1" "Design auth" none 0

/-- A registry store with one freshly created task `t8`. -/
def oneTaskStore8 : Store := TaskRegistry.create {} "t8" "Explore" none 0

section SortLemmas

open ContextTagger

theorem perm_insertByCreatedAt (c : ContextChunk) (l : List ContextChunk) :
    List.Perm (insertByCreatedAt c l) (c :: l) := by
  induction l with
  | nil => simp [insertByCreatedAt]
  | cons d rest ih =>
      by_cases h : d.created_at ≤ c.created_at
      · simp only [insertByCreatedAt, if_pos h]
        exact (ih.cons d).trans (List.Perm.swap c d rest)
      · simp [insertByCreatedAt, if_neg h]

theorem perm_sortByCreatedAt (l : List ContextChunk) :
    List.Perm (sortByCreatedAt l) l := by
  induction l with
  | nil => simp [sortByCreatedAt]
  | cons c rest ih =>
      exact (perm_insertByCreatedAt c (sortByCreatedAt rest)).trans (ih.cons c)

theorem mem_sortByCreatedAt {c : ContextChunk} {l : List ContextChunk} :
    c ∈ sortByCreatedAt l ↔ c ∈ l :=
  (perm_sortByCreatedAt l).mem_iff

theorem pairwise_insertByCreatedAt (c : ContextChunk) (l : List ContextChunk)
    (h : l.Pairwise (fun a b => a.created_at ≤ b.created_at)) :
    (insertByCreatedAt c l).Pairwise (fun a b => a.created_at ≤ b.created_at) := by
  induction l with
  | nil => simp [insertByCreatedAt]
  | cons d rest ih =>
      rcases List.pairwise_cons.mp h with ⟨hd, hrest⟩
      by_cases hle : d.created_at ≤ c.created_at
      · simp only [insertByCreatedAt, if_pos hle]
        refine List.pairwise_cons.mpr ⟨?_, ih hrest⟩
        intro x hx
        rcases List.mem_cons.mp ((perm_insertByCreatedAt c rest).mem_iff.mp hx) with
          rfl | hx
        · exact hle
        · exact hd x hx
      · simp only [insertByCreatedAt, if_neg hle]
        have hcd : c.created_at ≤ d.created_at := Nat.le_of_not_le hle
        refine List.pairwise_cons.mpr ⟨?_, h⟩
        intro x hx
        rcases List.mem_cons.mp hx with hx | hx
        · exact hx ▸ hcd
        · exact hcd.trans (hd x hx)

theorem pairwise_sortByCreatedAt (l : List ContextChunk) :
    (sortByCreatedAt l).Pairwise (fun a b => a.created_at ≤ b.created_at) := by
  induction l with
  | nil => simp [sortByCreatedAt]
  | cons c rest ih => exact pairwise_insertByCreatedAt c (sortByCreatedAt rest) ih

end SortLemmas

namespace EvictionEngine

theorem _chunk_signature_eq (c : ContextChunk) :
    _chunk_signature c = some (sigKey c) := rfl

theorem indexStep_apply (index : String → Option String) (c : ContextChunk)
    (k : String) :
    indexStep index c k = if k == sigKey c then some c.id else index k := rfl

theorem build_index_aux (l : List ContextChunk) :
    ∀ (init : String → Option String) (k : String),
      (l.foldl indexStep init) k =
        match lastWithSig l k with
        | some d => some d.id
        | none => init k := by
  induction l with
  | nil => intro init k; simp [lastWithSig]
  | cons c t ih =>
      intro init k
      rw [List.foldl_cons, ih (indexStep init c) k]
      cases h : lastWithSig t k with
      | some d => simp [lastWithSig, h]
      | none =>
          simp only [lastWithSig, h, indexStep_apply]
          by_cases hk : k = sigKey c
          · simp [hk]
          · have h1 : (k == sigKey c) = false := beq_eq_false_iff_ne.mpr hk
            have h2 : (sigKey c == k) = false :=
              beq_eq_false_iff_ne.mpr (fun h' => hk h'.symm)
            simp [h1, h2]

theorem build_index_eq (l : List ContextChunk) (k : String) :
    _build_supersession_index l k =
      match lastWithSig l k with
      | some d => some d.id
      | none => none := by
  simpa [_build_supersession_index] using build_index_aux l (fun _ => none) k

theorem lastWithSig_mem {l : List ContextChunk} {k : String} {d : ContextChunk}
    (h : lastWithSig l k = some d) : d ∈ l ∧ sigKey d = k := by
  induction l with
  | nil => simp [lastWithSig] at h
  | cons c t ih =>
      cases h' : lastWithSig t k with
      | some e =>
          simp only [lastWithSig, h'] at h
          injection h with he
          subst he
          rcases ih h' with ⟨hm, hs⟩
          exact ⟨List.mem_cons_of_mem c hm, hs⟩
      | none =>
          simp only [lastWithSig, h'] at h
          by_cases hk : sigKey c == k
          · rw [if_pos hk] at h
            injection h with he
            subst he
            exact ⟨List.mem_cons_self _ _, by simpa using hk⟩
          · rw [if_neg hk] at h; cases h

theorem lastWithSig_none {l : List ContextChunk} {k : String}
    (h : lastWithSig l k = none) : ∀ c ∈ l, sigKey c ≠ k := by
  induction l with
  | nil => intro c hc; cases hc
  | cons c t ih =>
      cases h' : lastWithSig t k with
      | some e => simp only [lastWithSig, h'] at h; cases h
      | none =>
          simp only [lastWithSig, h'] at h
          intro x hx
          rcases List.mem_cons.mp hx with rfl | hx
          · intro hk
            rw [if_pos (by simpa using hk)] at h
            cases h
          · exact ih h' x hx

theorem lastWithSig_isSome {l : List ContextChunk} {k : String}
    {c : ContextChunk} (hc : c ∈ l) (hk : sigKey c = k) :
    ∃ d, lastWithSig l k = some d := by
  cases h : lastWithSig l k with
  | some d => exact ⟨d, rfl⟩
  | none => exact absurd hk (lastWithSig_none h c hc)

theorem lastWithSig_max {l : List ContextChunk} {k : String} {d : ContextChunk}
    (hp : l.Pairwise (fun a b => a.created_at ≤ b.created_at))
    (h : lastWithSig l k = some d) :
    ∀ c ∈ l, sigKey c = k → c.created_at ≤ d.created_at := by
  induction l with
  | nil => intro c hc; cases hc
  | cons a t ih =>
      rcases List.pairwise_cons.mp hp with ⟨ha, ht⟩
      intro c hc hck
      cases h' : lastWithSig t k with
      | some e =>
          simp only [lastWithSig, h'] at h
          injection h with he
          subst he
          rcases List.mem_cons.mp hc with rfl | hc
          · exact ha e (lastWithSig_mem h').1
          · exact ih ht h' c hc hck
      | none =>
          simp only [lastWithSig, h'] at h
          rcases List.mem_cons.mp hc with rfl | hc
          · rw [if_pos (by simpa using hck)] at h
            injection h with he
            subst he
            exact Nat.le_refl _
          · exact absurd hck (lastWithSig_none h' c hc)

/-- The three behaviours of the per-chunk loop body. -/
theorem stepChunk_cases (b : Bool) (ar : List String)
    (idx : String → Option String) (acc : Store × EvictionReport)
    (c : ContextChunk) :
    ((c.status == "evictable") = true ∧
      stepChunk b ar idx acc c =
        (acc.1, addEvictable acc.2 c "previously_marked_evictable")) ∨
    ((c.status == "evictable") = false ∧ _why_keep acc.1 ar idx c = none ∧
      stepChunk b ar idx acc c =
        ((if b then ContextTagger.mark_evictable acc.1 c.id else acc.1),
         addEvictable acc.2 c "all_tasks_complete_no_active_refs")) ∨
    (∃ r, (c.status == "evictable") = false ∧
      _why_keep acc.1 ar idx c = some r ∧
      stepChunk b ar idx acc c = (acc.1, addPreserved acc.2 c r)) := by
  by_cases hs : (c.status == "evictable") = true
  · exact Or.inl ⟨hs, by simp [stepChunk, hs]⟩
  · have hs' : (c.status == "evictable") = false := by
      cases h : c.status == "evictable"
      · rfl
      · exact absurd h hs
    cases hw : _why_keep acc.1 ar idx c with
    | none =>
        exact Or.inr (Or.inl ⟨hs', rfl, by simp [stepChunk, hs', hw]⟩)
    | some r =>
        exact Or.inr (Or.inr ⟨r, hs', rfl, by simp [stepChunk, hs', hw]⟩)

/-- `mark_evictable` touches only the chunks table. -/
theorem mark_evictable_frame (s : Store) (i : String) :
    (ContextTagger.mark_evictable s i).tasks = s.tasks ∧
    (ContextTagger.mark_evictable s i).task_chunks = s.task_chunks ∧
    (ContextTagger.mark_evictable s i).reference_edges = s.reference_edges ∧
    (ContextTagger.mark_evictable s i).task_dependencies = s.task_dependencies :=
  ⟨rfl, rfl, rfl, rfl⟩

/-- The store coming out of a loop step differs from the one going in at most
by one `mark_evictable`. -/
theorem stepChunk_fst (b : Bool) (ar : List String)
    (idx : String → Option String) (acc : Store × EvictionReport)
    (c : ContextChunk) :
    (stepChunk b ar idx acc c).1 = acc.1 ∨
    (stepChunk b ar idx acc c).1 = ContextTagger.mark_evictable acc.1 c.id := by
  rcases stepChunk_cases b ar idx acc c with ⟨_, h⟩ | ⟨_, _, h⟩ | ⟨r, _, _, h⟩
  · exact Or.inl (by rw [h])
  · rw [h]
    cases b
    · exact Or.inl rfl
    · exact Or.inr rfl
  · exact Or.inl (by rw [h])

/-- A loop step never touches the tasks, ownership, reference or dependency
tables. -/
theorem stepChunk_frame (b : Bool) (ar : List String)
    (idx : String → Option String) (acc : Store × EvictionReport)
    (c : ContextChunk) :
    (stepChunk b ar idx acc c).1.tasks = acc.1.tasks ∧
    (stepChunk b ar idx acc c).1.task_chunks = acc.1.task_chunks ∧
    (stepChunk b ar idx acc c).1.reference_edges = acc.1.reference_edges ∧
    (stepChunk b ar idx acc c).1.task_dependencies = acc.1.task_dependencies := by
  rcases stepChunk_fst b ar idx acc c with h | h <;> rw [h]
  · exact ⟨rfl, rfl, rfl, rfl⟩
  · exact mark_evictable_frame acc.1 c.id

/-- Frame preservation for the whole loop. -/
theorem foldl_step_frame (b : Bool) (ar : List String)
    (idx : String → Option String) :
    ∀ (l : List ContextChunk) (acc : Store × EvictionReport),
      (l.foldl (stepChunk b ar idx) acc).1.tasks = acc.1.tasks ∧
      (l.foldl (stepChunk b ar idx) acc).1.task_chunks = acc.1.task_chunks ∧
      (l.foldl (stepChunk b ar idx) acc).1.reference_edges =
        acc.1.reference_edges ∧
      (l.foldl (stepChunk b ar idx) acc).1.task_dependencies =
        acc.1.task_dependencies := by
  intro l
  induction l with
  | nil => intro acc; exact ⟨rfl, rfl, rfl, rfl⟩
  | cons c t ih =>
      intro acc
      rw [List.foldl_cons]
      rcases ih (stepChunk b ar idx acc c) with ⟨h1, h2, h3, h4⟩
      rcases stepChunk_frame b ar idx acc c with ⟨g1, g2, g3, g4⟩
      exact ⟨h1.trans g1, h2.trans g2, h3.trans g3, h4.trans g4⟩

/-- `_why_keep` reads the store only through the tasks, ownership and
dependency tables. -/
theorem why_keep_frame {s1 s2 : Store} (ht : s1.tasks = s2.tasks)
    (htc : s1.task_chunks = s2.task_chunks)
    (htd : s1.task_dependencies = s2.task_dependencies)
    (ar : List String) (idx : String → Option String) (c : ContextChunk) :
    _why_keep s1 ar idx c = _why_keep s2 ar idx c := by
  simp only [_why_keep, _all_owning_tasks_complete, owningTaskIds,
    _any_owning_task_has_active_dependents, TaskRegistry.get,
    TaskRegistry.has_active_dependents, ht, htc, htd]

/-- Mapping a function that fixes every element satisfying `p` (and never
makes `p` flip) commutes with filtering by `p`. -/
theorem filter_map_eq {f : ContextChunk → ContextChunk} {p : ContextChunk → Bool}
    (hp : ∀ a, p (f a) = p a) (hid : ∀ a, p a = true → f a = a) :
    ∀ l : List ContextChunk, (l.map f).filter p = l.filter p := by
  intro l
  induction l with
  | nil => rfl
  | cons a t ih =>
      simp only [List.map_cons, List.filter_cons, hp a]
      cases h : p a
      · simpa using ih
      · rw [hid a h]
        simpa using ih

/-- `mark_evictable` on a different id leaves the rows of a given id alone. -/
theorem mark_evictable_filter_ne {i cid : String} (h : i ≠ cid) (s : Store) :
    (ContextTagger.mark_evictable s i).chunks.filter (fun c => c.id == cid) =
      s.chunks.filter (fun c => c.id == cid) := by
  refine filter_map_eq (fun a => ?_) (fun a ha => ?_) s.chunks
  · by_cases hx : (a.id == i) = true <;> simp [hx]
  · have hcid : a.id = cid := by simpa using ha
    have hx : (a.id == i) = false := by
      refine beq_eq_false_iff_ne.mpr ?_
      intro hcontra
      exact h (hcontra ▸ hcid)
    simp [hx]

/-- If no chunk of the processed list with a given id is classified
evictable, the loop leaves the rows of that id alone. -/
theorem foldl_step_filter_id (b : Bool) (ar : List String)
    (idx : String → Option String) :
    ∀ (l : List ContextChunk) (acc : Store × EvictionReport) (cid : String),
      (∀ d ∈ l, d.id = cid → (d.status == "evictable") = true ∨
          _why_keep acc.1 ar idx d ≠ none) →
      (l.foldl (stepChunk b ar idx) acc).1.chunks.filter (fun c => c.id == cid) =
        acc.1.chunks.filter (fun c => c.id == cid) := by
  intro l
  induction l with
  | nil => intro acc cid _; rfl
  | cons d t ih =>
      intro acc cid hno
      rw [List.foldl_cons]
      have hframe := stepChunk_frame b ar idx acc d
      have hwhy : ∀ x, _why_keep (stepChunk b ar idx acc d).1 ar idx x =
          _why_keep acc.1 ar idx x := fun x =>
        why_keep_frame hframe.1 hframe.2.1 hframe.2.2.2 ar idx x
      have hrec := ih (stepChunk b ar idx acc d) cid (fun x hx hxid => by
        rw [hwhy x]
        exact hno x (List.mem_cons_of_mem d hx) hxid)
      rw [hrec]
      rcases stepChunk_cases b ar idx acc d with ⟨_, h⟩ | ⟨hs, hw, h⟩ | ⟨r, _, _, h⟩
      · rw [h]
      · rw [h]
        cases b
        · rfl
        · have hdne : d.id ≠ cid := by
            intro hdid
            rcases hno d (List.mem_cons_self d t) hdid with hev | hne
            · rw [hs] at hev; cases hev
            · exact hne hw
          simpa using mark_evictable_filter_ne hdne acc.1
      · rw [h]

/-- With `update_db = false` the loop body never touches the store. -/
theorem stepChunk_false_fst (ar : List String) (idx : String → Option String)
    (acc : Store × EvictionReport) (c : ContextChunk) :
    (stepChunk false ar idx acc c).1 = acc.1 := by
  rcases stepChunk_cases false ar idx acc c with ⟨_, h⟩ | ⟨_, _, h⟩ | ⟨r, _, _, h⟩ <;>
    simp [h]

/-- With `update_db = false` the whole loop never touches the store. -/
theorem foldl_step_store_false (ar : List String) (idx : String → Option String) :
    ∀ (l : List ContextChunk) (acc : Store × EvictionReport),
      (l.foldl (stepChunk false ar idx) acc).1 = acc.1 := by
  intro l
  induction l with
  | nil => intro acc; rfl
  | cons c t ih =>
      intro acc
      rw [List.foldl_cons, ih (stepChunk false ar idx acc c),
        stepChunk_false_fst ar idx acc c]

theorem statusRel_refl (a : ContextChunk) : StatusRel a a := Or.inl rfl

theorem statusRel_trans {a b c : ContextChunk} (h1 : StatusRel a b)
    (h2 : StatusRel b c) : StatusRel a c := by
  rcases h1 with rfl | rfl
  · exact h2
  · rcases h2 with rfl | rfl
    · exact Or.inr rfl
    · exact Or.inr rfl

theorem forall₂_statusRel_refl (l : List ContextChunk) :
    List.Forall₂ StatusRel l l := by
  induction l with
  | nil => exact List.Forall₂.nil
  | cons a t ih => exact List.Forall₂.cons (statusRel_refl a) ih

theorem forall₂_statusRel_trans :
    ∀ {l1 l2 l3 : List ContextChunk}, List.Forall₂ StatusRel l1 l2 →
      List.Forall₂ StatusRel l2 l3 → List.Forall₂ StatusRel l1 l3 := by
  intro l1 l2 l3 h1
  induction h1 generalizing l3 with
  | nil => intro h2; cases h2; exact List.Forall₂.nil
  | cons ha ht ih =>
      intro h2
      cases h2 with
      | cons hb ht2 => exact List.Forall₂.cons (statusRel_trans ha hb) (ih ht2)

theorem forall₂_map_of_pointwise {f : ContextChunk → ContextChunk}
    (hf : ∀ a, StatusRel a (f a)) (l : List ContextChunk) :
    List.Forall₂ StatusRel l (l.map f) := by
  induction l with
  | nil => exact List.Forall₂.nil
  | cons a t ih => exact List.Forall₂.cons (hf a) ih

theorem mark_evictable_statusRel (s : Store) (i : String) :
    List.Forall₂ StatusRel s.chunks (ContextTagger.mark_evictable s i).chunks := by
  refine forall₂_map_of_pointwise (fun a => ?_) s.chunks
  by_cases h : (a.id == i) = true
  · exact Or.inr (by simp [h])
  · have h' : (a.id == i) = false := by
      cases hx : a.id == i
      · rfl
      · exact absurd hx h
    exact Or.inl (by simp [h'])

theorem foldl_step_statusRel (b : Bool) (ar : List String)
    (idx : String → Option String) :
    ∀ (l : List ContextChunk) (acc : Store × EvictionReport),
      List.Forall₂ StatusRel acc.1.chunks
        ((l.foldl (stepChunk b ar idx) acc).1.chunks) := by
  intro l
  induction l with
  | nil => intro acc; exact forall₂_statusRel_refl _
  | cons c t ih =>
      intro acc
      rw [List.foldl_cons]
      refine forall₂_statusRel_trans ?_ (ih (stepChunk b ar idx acc c))
      rcases stepChunk_fst b ar idx acc c with h | h <;> rw [h]
      · exact forall₂_statusRel_refl _
      · exact mark_evictable_statusRel acc.1 c.id

/-- The preserved side of a report only grows along the loop. -/
theorem foldl_step_preserved_mono (b : Bool) (ar : List String)
    (idx : String → Option String) :
    ∀ (l : List ContextChunk) (acc : Store × EvictionReport)
      (x : ContextChunk), x ∈ acc.2.preserved_chunks →
      x ∈ (l.foldl (stepChunk b ar idx) acc).2.preserved_chunks := by
  intro l
  induction l with
  | nil => intro acc x hx; exact hx
  | cons c t ih =>
      intro acc x hx
      rw [List.foldl_cons]
      refine ih (stepChunk b ar idx acc c) x ?_
      rcases stepChunk_cases b ar idx acc c with ⟨_, h⟩ | ⟨_, _, h⟩ | ⟨r, _, _, h⟩ <;>
        rw [h] <;> simp [addEvictable, addPreserved, hx]

/-- A chunk of the processed list that is not already evictable and for which
`_why_keep` produces a keep reason lands in the preserved list. -/
theorem foldl_step_classifies_preserved (b : Bool) (ar : List String)
    (idx : String → Option String) :
    ∀ (l : List ContextChunk) (acc : Store × EvictionReport)
      (c : ContextChunk) (r : String), c ∈ l →
      (c.status == "evictable") = false →
      _why_keep acc.1 ar idx c = some r →
      c ∈ (l.foldl (stepChunk b ar idx) acc).2.preserved_chunks := by
  intro l
  induction l with
  | nil => intro acc c r hc; cases hc
  | cons d t ih =>
      intro acc c r hc hs hw
      rw [List.foldl_cons]
      rcases List.mem_cons.mp hc with rfl | hc
      · have hstep : stepChunk b ar idx acc c =
            (acc.1, addPreserved acc.2 c r) := by
          simp [stepChunk, hs, hw]
        rw [hstep]
        refine foldl_step_preserved_mono b ar idx t _ c ?_
        simp [addPreserved]
      · refine ih (stepChunk b ar idx acc d) c r hc hs ?_
        rcases stepChunk_frame b ar idx acc d with ⟨h1, h2, _, h4⟩
        rw [why_keep_frame h1 h2 h4 ar idx c]
        exact hw

theorem preStore_chunks (s : Store) (b : Bool) :
    (preStore s b).chunks = s.chunks := by
  cases b <;> rfl

theorem run_eq_foldl (s : Store) (b : Bool) :
    run s b =
      (ContextTagger.list_all (preStore s b)).foldl
        (stepChunk b
          (ReferenceGraph.chunks_referenced_by_active_tasks (preStore s b))
          (_build_supersession_index (ContextTagger.list_all (preStore s b))))
        (preStore s b, {}) := rfl

/-- A run never changes the tasks table beyond the auto-abandon preamble. -/
theorem run_tasks (s : Store) (b : Bool) :
    (run s b).1.tasks = (preStore s b).tasks := by
  rw [run_eq_foldl]
  exact (foldl_step_frame b _ _ _ _).1

/-- A run relates every chunk row of the store to its output row by
`StatusRel`. -/
theorem run_chunks_statusRel (s : Store) (b : Bool) :
    List.Forall₂ StatusRel s.chunks (run s b).1.chunks := by
  rw [run_eq_foldl]
  have h := foldl_step_statusRel b
    (ReferenceGraph.chunks_referenced_by_active_tasks (preStore s b))
    (_build_supersession_index (ContextTagger.list_all (preStore s b)))
    (ContextTagger.list_all (preStore s b)) (preStore s b, {})
  rwa [show (preStore s b, ({} : EvictionReport)).1.chunks = s.chunks from
    preStore_chunks s b] at h

end EvictionEngine

/-- Pointwise relation between a list and its image under a map. -/
theorem forall₂_map_pointwise {α β : Type} {R : α → β → Prop} {f : α → β}
    (hf : ∀ a, R a (f a)) : ∀ l : List α, List.Forall₂ R l (l.map f) := by
  intro l
  induction l with
  | nil => exact List.Forall₂.nil
  | cons a t ih => exact List.Forall₂.cons (hf a) ih

namespace TaskRegistry

/-- The conflict-update branch of `upsert` seen through `get`: the first row
with the task's id becomes the new record, keeping the old `created_at`. -/
theorem find?_map_update (task : Task) :
    ∀ (l : List Task) (t : Task),
      l.find? (fun x => x.id == task.id) = some t →
      (l.map (fun x =>
          if x.id == task.id then { task with created_at := x.created_at }
          else x)).find? (fun x => x.id == task.id) =
        some { task with created_at := t.created_at } := by
  intro l
  induction l with
  | nil => intro t h; cases h
  | cons a rest ih =>
      intro t h
      by_cases ha : (a.id == task.id) = true
      · simp only [List.find?, ha] at h
        injection h with he
        subst he
        simp [List.find?, ha]
      · have ha' : (a.id == task.id) = false := by
          cases hx : a.id == task.id
          · rfl
          · exact absurd hx ha
        simp only [List.find?, ha'] at h
        simp only [List.map_cons,
          if_neg (by simp [ha'] : ¬ (a.id == task.id) = true)]
        simp only [List.find?, ha']
        exact ih t h

/-- `get` after `upsert` on an existing id returns the upserted record with
the stored row's `created_at`. -/
theorem get_upsert_existing (s : Store) (task t : Task)
    (hget : get s task.id = some t) :
    get (upsert s task) task.id =
      some { task with created_at := t.created_at } := by
  have hget' : s.tasks.find? (fun x => x.id == task.id) = some t := hget
  have hpred := List.find?_some hget'
  have hany : s.tasks.any (fun x => x.id == task.id) = true :=
    List.any_eq_true.mpr ⟨t, List.mem_of_find?_eq_some hget', hpred⟩
  unfold upsert
  rw [if_pos hany]
  exact find?_map_update task s.tasks t hget'

/-- `update_status` on an existing task sets exactly the requested status and
stamps `completed_at` only on a first transition to "completed". -/
theorem get_update_status (s : Store) (task_id st : String) (now : Nat)
    (t : Task) (hget : get s task_id = some t) :
    get (update_status s task_id st now) task_id =
      some { t with
             status := st,
             completed_at :=
               if st = "completed" ∧ t.completed_at = none then some now
               else t.completed_at } := by
  have htid : t.id = task_id := by
    have h1 : s.tasks.find? (fun x => x.id == task_id) = some t := hget
    have h2 := List.find?_some h1
    simpa using h2
  have hmain : get (update_status s task_id st now) task_id =
      some { t with
             status := st,
             completed_at :=
               if st == "completed" && t.completed_at == none then some now
               else t.completed_at } := by
    unfold update_status
    rw [hget, ← htid]
    exact get_upsert_existing s
      { t with
        status := st,
        completed_at :=
          if st == "completed" && t.completed_at == none then some now
          else t.completed_at } t
      (by show get s t.id = some t; rw [htid]; exact hget)
  rw [hmain]
  by_cases hc : st = "completed" ∧ t.completed_at = none
  · have hb : (st == "completed" && t.completed_at == none) = true := by
      simpa using hc
    simp [hb, hc]
  · have hb : (st == "completed" && t.completed_at == none) = false := by
      cases hx : (st == "completed" && t.completed_at == none)
      · rfl
      · exact absurd (by simpa using hx) hc
    simp [hb, hc]

/-- `create` on an existing id resets the row to a pending task (only
`created_at` survives from the old row). -/
theorem get_create_existing (s : Store) (task_id subject : String)
    (p : Option String) (now : Nat) (t : Task)
    (hget : get s task_id = some t) :
    get (create s task_id subject p now) task_id =
      some { id := task_id, subject := subject, status := "pending",
             parent_id := p, created_at := t.created_at,
             completed_at := none, metadata := [] } := by
  unfold create
  exact get_upsert_existing s _ t hget

end TaskRegistry

namespace ContextTagger

/-- `tag_chunk` never touches the chunks table. -/
theorem tag_chunk_chunks (s : Store) (tid cid : String) :
    (TaskRegistry.tag_chunk s tid cid).chunks = s.chunks := by
  unfold TaskRegistry.tag_chunk
  split <;> rfl

/-- The chunks table after `_persist`. -/
theorem persist_chunks (s : Store) (ch : ContextChunk) :
    (_persist s ch).chunks =
      if s.chunks.any (fun c => c.id == ch.id) then
        s.chunks.map (fun c =>
          if c.id == ch.id then
            { c with status := ch.status, size_tokens := ch.size_tokens }
          else c)
      else s.chunks ++ [ch] := by
  unfold _persist
  split <;> rfl

/-- After `_persist`, every row carrying the persisted id has the persisted
size. -/
theorem persist_size_at_id (s : Store) (ch : ContextChunk) :
    ∀ c' ∈ (_persist s ch).chunks, c'.id = ch.id →
      c'.size_tokens = ch.size_tokens := by
  intro c' hc' hid
  rw [persist_chunks] at hc'
  by_cases hany : (s.chunks.any (fun c => c.id == ch.id)) = true
  · rw [if_pos hany] at hc'
    rcases List.mem_map.mp hc' with ⟨a, ha, rfl⟩
    by_cases hx : (a.id == ch.id) = true
    · simp [hx]
    · rw [if_neg hx] at hid
      exact absurd (by simpa using hid) (fun h => hx (by simp [h]))
  · have hany' : (s.chunks.any (fun c => c.id == ch.id)) = false := by
      cases hx : s.chunks.any (fun c => c.id == ch.id)
      · rfl
      · exact absurd hx hany
    rw [if_neg (by simp [hany'])] at hc'
    rcases List.mem_append.mp hc' with hl | hr
    · rcases List.any_eq_false.mp hany' with hall
      exact absurd (by simpa using hid) (by simpa using hall c' hl)
    · rw [List.mem_singleton.mp hr]

/-- Ingest only adds or updates chunk rows through `_persist`; the follow-up
ownership tagging does not touch the chunks table. -/
theorem ingest_chunks (s : Store) (tool_use_id tool_name : String)
    (tool_input : List (String × String)) (tool_output : String)
    (session_id task_id : Option String) (now : Nat) :
    (ingest s tool_use_id tool_name tool_input tool_output session_id
        task_id now).1.chunks =
      (_persist s (ingest s tool_use_id tool_name tool_input tool_output
        session_id task_id now).2).chunks := by
  cases task_id with
  | some tid => simp [ingest, tag_chunk_chunks]
  | none =>
      cases h : (TaskRegistry.get_current_active s).map Task.id with
      | some tid => simp [ingest, h, tag_chunk_chunks]
      | none => simp [ingest, h]

/-- Bool-to-Prop reading of the write-invalidation target predicate. -/
theorem invalidatesRead_iff (p : String) (c : ContextChunk) :
    invalidatesRead p c = true ↔
      (c.tool_name = "Read" ∧ c.tool_input.lookup "file_path" = some p ∧
        c.status = "fresh") := by
  simp [invalidatesRead, and_assoc]

end ContextTagger

/-! The ten claims. -/

/-- Claim C3 (code bug witness): a chunk whose only owning task has status
"abandoned", with no reference edge from an active task and no active
dependent, is NOT classified evictable by a run — the engine keeps it with
reason `owning_task_not_complete`, because `Task.is_complete` recognises only
"completed".  This contradicts the engine's own module documentation
("treated as complete for rules 3 and 4") and the spec. -/
theorem abandoned_owner_chunk_kept :
    (EvictionEngine.run abandonedOwnerStore true).2.preserved_chunks.map
        ContextChunk.id = ["c1"] ∧
    (EvictionEngine.run abandonedOwnerStore true).2.reasons =
      [("c1", "owning_task_not_complete")] ∧
    (EvictionEngine.run abandonedOwnerStore true).2.evictable_chunks = [] ∧
    ((EvictionEngine.run abandonedOwnerStore true).1.chunks.map
        ContextChunk.status) = ["fresh"] := by decide

/-- Claim C6 counterexample: an evictable chunk does not stay evictable under
every store operation — `mark_integrated` overwrites the status with
"integrated", and re-ingesting the same invocation id resets it to "fresh"
(the upsert writes the new chunk's status). -/
theorem evictable_status_not_monotonic :
    ((ContextTagger.mark_integrated evictableChunkStore "c1").chunks.map
        ContextChunk.status = ["integrated"]) ∧
    ((ContextTagger.ingest evictableChunkStore "c1" "Read" [] "xyz" none none
        5).1.chunks.map ContextChunk.status = ["fresh"]) := by decide

/-- Claim C6 amended: once a chunk is evictable, an eviction-engine run (with
either value of `update_db`) never moves it back — every run relates each
chunk row to its output row by identity or by setting the status to
"evictable"; `mark_integrated` and duplicate ingestion, however, do overwrite
the status. -/
theorem run_preserves_evictable (s : Store) (b : Bool) :
    List.Forall₂ (fun a a' => a'.id = a.id ∧
        (a.status = "evictable" → a'.status = "evictable"))
      s.chunks (EvictionEngine.run s b).1.chunks := by
  refine List.Forall₂.imp ?_ (EvictionEngine.run_chunks_statusRel s b)
  intro a a' h
  rcases h with rfl | rfl
  · exact ⟨rfl, fun h => h⟩
  · exact ⟨rfl, fun _ => rfl⟩

/-- Witness for the amended C6 statement on a concrete store. -/
theorem run_preserves_evictable_witness :
    List.Forall₂ (fun a a' => a'.id = a.id ∧
        (a.status = "evictable" → a'.status = "evictable"))
      evictableChunkStore.chunks
      (EvictionEngine.run evictableChunkStore true).1.chunks :=
  run_preserves_evictable evictableChunkStore true

/-- Claim C7 counterexample: terminal task states are not absorbing —
`update_status` happily moves a completed task back to "pending", and
`create` on an existing id resets status, parent, completed_at and metadata
(only `created_at` survives). -/
theorem terminal_states_not_absorbing :
    (TaskRegistry.get
        (TaskRegistry.update_status oneTaskStore "t1" "completed" 1)
        "t1").map Task.status = some "completed" ∧
    (TaskRegistry.get
        (TaskRegistry.update_status
          (TaskRegistry.update_status oneTaskStore "t1" "completed" 1)
          "t1" "pending" 2)
        "t1").map Task.status = some "pending" ∧
    TaskRegistry.get
        (TaskRegistry.create
          (TaskRegistry.update_status oneTaskStore "t1" "completed" 1)
          "t1" "Again" none 3)
        "t1" =
      some { id := "t1", subject := "Again", status := "pending",
             parent_id := none, created_at := 0, completed_at := none,
             metadata := [] } := by decide

/-- Claim C7 amended: `update_status` on an existing task sets exactly the
requested status (no terminal-state guard), and `create` on an existing id
resets the row to a pending task, preserving only `created_at`. -/
theorem update_status_and_create_overwrite (s : Store)
    (task_id subject st : String) (p : Option String) (now : Nat) (t : Task)
    (hget : TaskRegistry.get s task_id = some t) :
    (TaskRegistry.get (TaskRegistry.update_status s task_id st now)
        task_id).map Task.status = some st ∧
    TaskRegistry.get (TaskRegistry.create s task_id subject p now) task_id =
      some { id := task_id, subject := subject, status := "pending",
             parent_id := p, created_at := t.created_at,
             completed_at := none, metadata := [] } := by
  constructor
  · rw [TaskRegistry.get_update_status s task_id st now t hget]
    rfl
  · exact TaskRegistry.get_create_existing s task_id subject p now t hget

/-- Witness for the amended C7 statement on a concrete store. -/
theorem update_status_and_create_overwrite_witness :
    (TaskRegistry.get
        (TaskRegistry.update_status oneTaskStore "t1" "in_progress" 5)
        "t1").map Task.status = some "in_progress" ∧
    TaskRegistry.get
        (TaskRegistry.create oneTaskStore "t1" "Re-created" none 5) "t1" =
      some { id := "t1", subject := "Re-created", status := "pending",
             parent_id := none, created_at := 0, completed_at := none,
             metadata := [] } :=
  update_status_and_create_overwrite oneTaskStore "t1" "Re-created"
    "in_progress" none 5
    { id := "t1", subject := "Design auth", status := "pending",
      parent_id := none, created_at := 0, completed_at := none,
      metadata := [] } (by decide)

/-- Claim C8 counterexample: `update_status` to "abandoned" does not stamp
`completed_at` — the task ends terminal with a null timestamp, violating the
claimed iff. -/
theorem abandoned_without_completed_at :
    (TaskRegistry.get
        (TaskRegistry.update_status oneTaskStore8 "t8" "abandoned" 1)
        "t8").map Task.status = some "abandoned" ∧
    (TaskRegistry.get
        (TaskRegistry.update_status oneTaskStore8 "t8" "abandoned" 1)
        "t8").map Task.completed_at = some none := by decide

/-- Claim C8 amended: `update_status` stamps `completed_at` exactly on a
first transition to "completed"; any other status (including "abandoned")
leaves the old value in place. -/
theorem update_status_stamp_rule (s : Store) (task_id st : String)
    (now : Nat) (t : Task) (hget : TaskRegistry.get s task_id = some t) :
    (TaskRegistry.get (TaskRegistry.update_status s task_id st now)
        task_id).map Task.completed_at =
      some (if st = "completed" ∧ t.completed_at = none then some now
            else t.completed_at) := by
  rw [TaskRegistry.get_update_status s task_id st now t hget]
  rfl

/-- Witness for the amended C8 statement on a concrete store. -/
theorem update_status_stamp_rule_witness :
    (TaskRegistry.get
        (TaskRegistry.update_status oneTaskStore8 "t8" "completed" 7)
        "t8").map Task.completed_at =
      some (if "completed" = "completed" ∧
          (none : Option Nat) = none then some 7 else none) :=
  update_status_stamp_rule oneTaskStore8 "t8" "completed" 7
    { id := "t8", subject := "Explore", status := "pending",
      parent_id := none, created_at := 0, completed_at := none,
      metadata := [] } (by decide)

/-- Claim C9 counterexample: on the five-character output "aaaaa" the
persisted size is max(1, 5 // 4) = 1, while the claimed ceiling formula
gives max(1, ceil(5 / 4)) = 2. -/
theorem size_tokens_not_ceiling :
    (ContextTagger.ingest {} "u1" "Bash" [] "aaaaa" none none
        0).2.size_tokens = 1 ∧
    max 1 ((String.length "aaaaa" + 3) / 4) = 2 := by decide

/-- Claim C9 amended: the chunk persisted by `ingest` has
size_tokens = max(1, floor(len(text) / 4)) — floor division, not ceiling. -/
theorem ingest_size_tokens (s : Store) (tool_use_id tool_name : String)
    (tool_input : List (String × String)) (tool_output : String)
    (session_id task_id : Option String) (now : Nat) :
    (ContextTagger.ingest s tool_use_id tool_name tool_input tool_output
        session_id task_id now).2.size_tokens =
      max 1 (tool_output.length / 4) ∧
    ∀ c' ∈ (ContextTagger.ingest s tool_use_id tool_name tool_input
        tool_output session_id task_id now).1.chunks, c'.id = tool_use_id →
      c'.size_tokens = max 1 (tool_output.length / 4) := by
  constructor
  · rfl
  · intro c' hc' hid
    rw [ContextTagger.ingest_chunks] at hc'
    exact ContextTagger.persist_size_at_id s _ c' hc' hid

/-- Witness for the amended C9 statement on concrete inputs. -/
theorem ingest_size_tokens_witness :
    (ContextTagger.ingest {} "u2" "Read" [("file_path", "/f")] "abcdefgh"
        none none 3).2.size_tokens = max 1 (("abcdefgh" : String).length / 4) :=
  (ingest_size_tokens {} "u2" "Read" [("file_path", "/f")] "abcdefgh"
    none none 3).1

/-- Claim C10: `EvictionEngine.run` with `update_db = false` performs no
store mutation at all — the resulting store is the input store; the call
only produces a report. -/
theorem run_readonly (s : Store) : (EvictionEngine.run s false).1 = s := by
  rw [EvictionEngine.run_eq_foldl]
  exact EvictionEngine.foldl_step_store_false _ _ _ _

/-- Claim C2 (modelled from the spec, the method being absent from the
source): `invalidate_reads_for_path p` marks as evictable exactly the fresh
file-read chunks whose tool_input's `file_path` equals `p`; every other
chunk row and every other table is left unchanged, and the returned count is
the number of chunks invalidated. -/
theorem invalidate_reads_exact (s : Store) (p : String) :
    List.Forall₂ (fun a a' =>
      ((a.tool_name = "Read" ∧ a.tool_input.lookup "file_path" = some p ∧
          a.status = "fresh") → a' = { a with status := "evictable" }) ∧
      (¬(a.tool_name = "Read" ∧ a.tool_input.lookup "file_path" = some p ∧
          a.status = "fresh") → a' = a))
      s.chunks (ContextTagger.invalidate_reads_for_path s p).1.chunks ∧
    (ContextTagger.invalidate_reads_for_path s p).2 =
      s.chunks.countP (ContextTagger.invalidatesRead p) ∧
    (ContextTagger.invalidate_reads_for_path s p).1.tasks = s.tasks ∧
    (ContextTagger.invalidate_reads_for_path s p).1.task_chunks =
      s.task_chunks ∧
    (ContextTagger.invalidate_reads_for_path s p).1.reference_edges =
      s.reference_edges ∧
    (ContextTagger.invalidate_reads_for_path s p).1.task_dependencies =
      s.task_dependencies := by
  refine ⟨?_, ?_, rfl, rfl, rfl, rfl⟩
  · refine forall₂_map_pointwise (fun a => ?_) s.chunks
    by_cases h : ContextTagger.invalidatesRead p a = true
    · refine ⟨fun _ => by simp [h], fun hn => ?_⟩
      exact absurd ((ContextTagger.invalidatesRead_iff p a).mp h) hn
    · have h' : ContextTagger.invalidatesRead p a = false := by
        cases hx : ContextTagger.invalidatesRead p a
        · rfl
        · exact absurd hx h
      refine ⟨fun hc => ?_, fun _ => by simp [h']⟩
      exact absurd ((ContextTagger.invalidatesRead_iff p a).mpr hc)
        (by simp [h'])
  · exact (List.countP_eq_length_filter _ _).symm

/-- Claim C1 (abandon_stale_tasks modelled from the spec): a run with
`update_db` invokes `abandon_stale_tasks` at threshold 50 before any chunk
is classified — every in_progress task with at least 50 chunks created after
its created-at is transitioned to "abandoned" in the run's resulting store,
and `abandon_stale_tasks` returns exactly the transitioned ids. -/
theorem run_abandons_stale_tasks (s : Store) (t : Task) (ht : t ∈ s.tasks) :
    (t.status = "in_progress" → 50 ≤ TaskRegistry.chunksCreatedAfter s t →
      (t.id ∈ (TaskRegistry.abandon_stale_tasks s 50).2 ∧
       { t with status := "abandoned" } ∈
         (EvictionEngine.run s true).1.tasks)) ∧
    (∀ i ∈ (TaskRegistry.abandon_stale_tasks s 50).2,
      ∃ u, u ∈ s.tasks ∧ u.id = i ∧ u.status = "in_progress" ∧
        50 ≤ TaskRegistry.chunksCreatedAfter s u) := by
  constructor
  · intro h1 h2
    have hstale : TaskRegistry.isStaleTask s 50 t = true := by
      simp [TaskRegistry.isStaleTask, h1, h2]
    constructor
    · show t.id ∈ (s.tasks.filter (TaskRegistry.isStaleTask s 50)).map Task.id
      exact List.mem_map_of_mem Task.id (List.mem_filter.mpr ⟨ht, hstale⟩)
    · rw [EvictionEngine.run_tasks]
      show { t with status := "abandoned" } ∈ s.tasks.map (fun u =>
        if TaskRegistry.isStaleTask s 50 u then { u with status := "abandoned" }
        else u)
      have hm := List.mem_map_of_mem (fun u =>
        if TaskRegistry.isStaleTask s 50 u then { u with status := "abandoned" }
        else u) ht
      simpa [hstale] using hm
  · intro i hi
    have hi' : i ∈ (s.tasks.filter (TaskRegistry.isStaleTask s 50)).map
        Task.id := hi
    rcases List.mem_map.mp hi' with ⟨u, hu, rfl⟩
    rcases List.mem_filter.mp hu with ⟨hmem, hstale⟩
    have hp : u.status = "in_progress" ∧
        50 ≤ TaskRegistry.chunksCreatedAfter s u := by
      simpa [TaskRegistry.isStaleTask] using hstale
    exact ⟨u, hmem, rfl, hp.1, hp.2⟩

/-- Witness for C1 on a store with one in_progress task and fifty later
chunks. -/
theorem run_abandons_stale_tasks_witness :
    staleTask.id ∈ (TaskRegistry.abandon_stale_tasks staleStore 50).2 ∧
    { staleTask with status := "abandoned" } ∈
      (EvictionEngine.run staleStore true).1.tasks :=
  (run_abandons_stale_tasks staleStore staleTask (by decide)).1 rfl (by decide)

/-- Claim C5: supersession is exact — for any two distinct chunks in the
store with the same tool_name and byte-identical canonical (key-sorted)
input serialisation, the supersession index built over `list_all` (ascending
created-at) maps their shared signature to a single chunk id whose
created-at is maximal among all chunks with that signature, so exactly one
chunk per signature is non-superseded: the latest. -/
theorem supersession_index_latest (s : Store) (c1 c2 : ContextChunk)
    (h1 : c1 ∈ s.chunks) (h2 : c2 ∈ s.chunks) (hne : c1.id ≠ c2.id)
    (htool : c1.tool_name = c2.tool_name)
    (hcanon : canonicalJson c1.tool_input = canonicalJson c2.tool_input) :
    EvictionEngine.sigKey c2 = EvictionEngine.sigKey c1 ∧
    ∃ w, w ∈ s.chunks ∧
      EvictionEngine.sigKey w = EvictionEngine.sigKey c1 ∧
      EvictionEngine._build_supersession_index (ContextTagger.list_all s)
        (EvictionEngine.sigKey c1) = some w.id ∧
      ∀ c ∈ s.chunks, EvictionEngine.sigKey c = EvictionEngine.sigKey c1 →
        c.created_at ≤ w.created_at := by
  have hsig : EvictionEngine.sigKey c2 = EvictionEngine.sigKey c1 := by
    unfold EvictionEngine.sigKey
    rw [htool, hcanon]
  refine ⟨hsig, ?_⟩
  have hmem : c1 ∈ ContextTagger.list_all s := mem_sortByCreatedAt.mpr h1
  rcases EvictionEngine.lastWithSig_isSome hmem rfl with ⟨w, hw⟩
  rcases EvictionEngine.lastWithSig_mem hw with ⟨hwmem, hwsig⟩
  refine ⟨w, mem_sortByCreatedAt.mp hwmem, hwsig, ?_, ?_⟩
  · rw [EvictionEngine.build_index_eq, hw]
  · intro c hc hcsig
    exact EvictionEngine.lastWithSig_max
      (pairwise_sortByCreatedAt s.chunks) hw c
      (mem_sortByCreatedAt.mpr hc) hcsig

/-- Witness for C5 on a store with two duplicate reads. -/
theorem supersession_index_latest_witness :
    EvictionEngine.sigKey dupNew = EvictionEngine.sigKey dupOld ∧
    ∃ w, w ∈ dupStore.chunks ∧
      EvictionEngine.sigKey w = EvictionEngine.sigKey dupOld ∧
      EvictionEngine._build_supersession_index
        (ContextTagger.list_all dupStore)
        (EvictionEngine.sigKey dupOld) = some w.id ∧
      ∀ c ∈ dupStore.chunks,
        EvictionEngine.sigKey c = EvictionEngine.sigKey dupOld →
        c.created_at ≤ w.created_at :=
  supersession_index_latest dupStore dupOld dupNew (by decide) (by decide)
    (by decide) rfl rfl

/-- Claim C4 counterexample: chunk c1 carries a reference edge from the
in_progress task t2, yet a run classifies it evictable and marks it so in
the store — the supersession rule is checked before the active-reference
rule, and c1 is superseded by c2 with its only owner t1 completed. -/
theorem active_reference_not_always_kept :
    "c1" ∈ ReferenceGraph.chunks_referenced_by_active_tasks
      supersededRefStore ∧
    "c1" ∈ (EvictionEngine.run supersededRefStore true).2.evictable_chunks.map
      ContextChunk.id ∧
    ((EvictionEngine.run supersededRefStore true).1.chunks.filter
        (fun c => c.id == "c1")).map ContextChunk.status = ["evictable"] := by
  decide

/-- Claim C4 amended: a chunk with a reference edge from a pending or
in_progress task is never classified evictable by a run — it lands in the
preserved list and its row is left untouched — **unless** the chunk is
superseded (the index maps its signature to a different id) with all its
owning tasks complete, in which case rule 1 evicts it before the
active-reference rule is consulted. -/
theorem active_reference_preserved_unless_superseded (s : Store) (b : Bool)
    (c : ContextChunk) (hmem : c ∈ s.chunks)
    (hnodup : (s.chunks.map ContextChunk.id).Nodup)
    (hstat : c.status ≠ "evictable")
    (href : c.id ∈ ReferenceGraph.chunks_referenced_by_active_tasks
      (EvictionEngine.preStore s b))
    (hsup : ∀ latest,
      EvictionEngine._build_supersession_index
          (ContextTagger.list_all (EvictionEngine.preStore s b))
          (EvictionEngine.sigKey c) = some latest →
      latest = c.id ∨
        EvictionEngine._all_owning_tasks_complete
          (EvictionEngine.preStore s b) c = false) :
    c ∈ (EvictionEngine.run s b).2.preserved_chunks ∧
    ∀ c' ∈ (EvictionEngine.run s b).1.chunks, c'.id = c.id → c' = c := by
  have hcont : (ReferenceGraph.chunks_referenced_by_active_tasks
      (EvictionEngine.preStore s b)).contains c.id = true := by
    simpa using href
  have hwhy : ∃ r, EvictionEngine._why_keep (EvictionEngine.preStore s b)
      (ReferenceGraph.chunks_referenced_by_active_tasks
        (EvictionEngine.preStore s b))
      (EvictionEngine._build_supersession_index
        (ContextTagger.list_all (EvictionEngine.preStore s b)))
      c = some r := by
    cases hidx : EvictionEngine._build_supersession_index
        (ContextTagger.list_all (EvictionEngine.preStore s b))
        (EvictionEngine.sigKey c) with
    | none =>
        exact ⟨"referenced_by_active_task",
          by simp [EvictionEngine._why_keep, EvictionEngine._chunk_signature_eq,
            hidx, hcont, href]⟩
    | some latest =>
        rcases hsup latest hidx with hlat | hcomp
        · subst hlat
          exact ⟨"referenced_by_active_task",
            by simp [EvictionEngine._why_keep,
              EvictionEngine._chunk_signature_eq, hidx, hcont, href]⟩
        · by_cases hlat : latest = c.id
          · subst hlat
            exact ⟨"referenced_by_active_task",
              by simp [EvictionEngine._why_keep,
                EvictionEngine._chunk_signature_eq, hidx, hcont, href]⟩
          · have hbne : (latest != c.id) = true := by
              simpa using hlat
            exact ⟨"superseded_but_task_still_active",
              by simp [EvictionEngine._why_keep,
                EvictionEngine._chunk_signature_eq, hidx, hbne, hcomp]⟩
  rcases hwhy with ⟨r, hr⟩
  have hsfalse : (c.status == "evictable") = false := by
    cases hx : c.status == "evictable"
    · rfl
    · exact absurd (by simpa using hx) hstat
  have hmem0 : c ∈ (EvictionEngine.preStore s b).chunks := by
    rw [EvictionEngine.preStore_chunks]
    exact hmem
  have hcl : c ∈ ContextTagger.list_all (EvictionEngine.preStore s b) :=
    mem_sortByCreatedAt.mpr hmem0
  constructor
  · rw [EvictionEngine.run_eq_foldl]
    exact EvictionEngine.foldl_step_classifies_preserved b _ _
      (ContextTagger.list_all (EvictionEngine.preStore s b))
      (EvictionEngine.preStore s b, {}) c r hcl hsfalse hr
  · intro c' hc' hcid
    have hinj := List.inj_on_of_nodup_map hnodup
    have hfil := EvictionEngine.foldl_step_filter_id b
      (ReferenceGraph.chunks_referenced_by_active_tasks
        (EvictionEngine.preStore s b))
      (EvictionEngine._build_supersession_index
        (ContextTagger.list_all (EvictionEngine.preStore s b)))
      (ContextTagger.list_all (EvictionEngine.preStore s b))
      (EvictionEngine.preStore s b, {}) c.id ?_
    · rw [EvictionEngine.run_eq_foldl] at hc'
      have hcfil : c' ∈ ((ContextTagger.list_all
          (EvictionEngine.preStore s b)).foldl
            (EvictionEngine.stepChunk b
              (ReferenceGraph.chunks_referenced_by_active_tasks
                (EvictionEngine.preStore s b))
              (EvictionEngine._build_supersession_index
                (ContextTagger.list_all (EvictionEngine.preStore s b))))
            (EvictionEngine.preStore s b, {})).1.chunks.filter
          (fun x => x.id == c.id) :=
        List.mem_filter.mpr ⟨hc', by simpa using hcid⟩
      rw [hfil] at hcfil
      rcases List.mem_filter.mp hcfil with ⟨hcmem, _⟩
      have hcmem2 : c' ∈ s.chunks := by
        rwa [EvictionEngine.preStore_chunks] at hcmem
      exact hinj hcmem2 hmem hcid
    · intro d hd hdid
      have hd0 : d ∈ s.chunks := by
        have := mem_sortByCreatedAt.mp hd
        rwa [EvictionEngine.preStore_chunks] at this
      have hdc : d = c := hinj hd0 hmem hdid
      subst hdc
      exact Or.inr (fun hn => by rw [hr] at hn; cases hn)

/-- Witness for the amended C4 statement: a fresh, non-superseded chunk
referenced by its in_progress owner is preserved and left untouched. -/
theorem active_reference_preserved_witness :
    activeRefChunk ∈
      (EvictionEngine.run activeRefStore true).2.preserved_chunks ∧
    ∀ c' ∈ (EvictionEngine.run activeRefStore true).1.chunks,
      c'.id = activeRefChunk.id → c' = activeRefChunk := by
  have hidx : EvictionEngine._build_supersession_index
      (ContextTagger.list_all
        (EvictionEngine.preStore activeRefStore true))
      (EvictionEngine.sigKey activeRefChunk) = some "c1" := by decide
  refine active_reference_preserved_unless_superseded activeRefStore true
    activeRefChunk (by decide) (by decide) (by decide) (by decide) ?_
  intro latest h
  rw [hidx] at h
  exact Or.inl (Option.some.inj h).symm

end Raii
